import Mathlib

/-!
Shallow embedding of the mortgage-intel-monitor insights pipeline.

The definitions below are translated from the repository's JavaScript
sources:
* `getArticles`, `cleanOldArticles` — `src/server/db.js` (in-memory store);
* `generateInsights`, `ensureSourceCoverage`, `getFallbackInsights` —
  `src/unnamed/part_004` (`server/insightsGenerator.js`);
* `isValidCategory`, `sanitizeString`, the `GET /api/articles` and
  `POST /api/insights` handlers — `src/unnamed/part_002` (`server/index.js`).

JavaScript `Date` values are modelled as natural-number timestamps in
milliseconds; `setHours(0,0,0,0)` / `setHours(23,59,59,999)` become
start-of-day / end-of-day in a fixed reference timezone.  JavaScript string
truthiness (`if (s)`) is modelled as `s ≠ ""`.  The semi-structured LLM
response extraction (regex + `JSON.parse`) is modelled by an abstract
fallible parser `String → Option InsightsData`.

The archive-backed cache tier (`getTodaysInsights`, the deduplicating
`saveInsights`) is imported by `server/index.js` but its implementation is
not among the repository's source files; those two definitions are modelled
from the specification and are marked as such in their doc comments.
-/

/-- JavaScript `String.prototype.toLowerCase`, character by character. -/
def jsLower (s : String) : String := (s.toList.map Char.toLower).asString

/-- Helper for `jsIncludes`: does `hay` start with `need`? -/
def charsStartWith : List Char → List Char → Bool
  | _, [] => true
  | [], _ :: _ => false
  | a :: as, b :: bs => a == b && charsStartWith as bs

/-- Helper for `jsIncludes`: does `hay` contain `need` as a contiguous run? -/
def charsContain (hay need : List Char) : Bool :=
  match hay with
  | [] => need.isEmpty
  | _ :: t => charsStartWith hay need || charsContain t need

/-- JavaScript `String.prototype.includes`. -/
def jsIncludes (s sub : String) : Bool := charsContain s.toList sub.toList

/-- JavaScript `String.prototype.substring(0, n)` (grab the first `n` units). -/
def jsTake (s : String) (n : Nat) : String := (s.toList.take n).asString

/-- First-occurrence-order deduplication, as produced by `new Set(...)`
spreads and by insertion-ordered object keys in the JavaScript sources. -/
def jsDistinct (l : List String) : List String :=
  l.foldl (fun acc s => if acc.contains s then acc else acc ++ [s]) []

/-- Milliseconds in a day. -/
def dayMs : Nat := 86400000

/-- Milliseconds in an hour. -/
def hourMs : Nat := 3600000

/-- Model of `date.setHours(0, 0, 0, 0)` on a millisecond timestamp. -/
def startOfDay (t : Nat) : Nat := t / dayMs * dayMs

/-- Model of `date.setHours(23, 59, 59, 999)` on a millisecond timestamp. -/
def endOfDay (t : Nat) : Nat := startOfDay t + (dayMs - 1)

/-- Do two timestamps fall on the same calendar day (fixed timezone)? -/
def sameDay (t u : Nat) : Bool := t / dayMs == u / dayMs

/-- Article record as stored by `saveArticle` in `src/server/db.js`, together
with the `category` field that the fetcher (`src/unnamed/part_005`) puts on
articles it hands to the API layer. -/
structure Article where
  title : String := ""
  link : String := ""
  source : String := ""
  category : String := ""
  summary : String := ""
  originalContent : String := ""
  pubDate : Nat := 0
deriving Repr, DecidableEq, Inhabited

/-- Query filters accepted by `getArticles` (`src/server/db.js`).  String
fields use `""` for an absent filter, mirroring JavaScript falsiness of the
empty string; date fields use `none` for absent. -/
structure ArticleFilters where
  source : String := ""
  category : String := ""
  startDate : Option Nat := none
  endDate : Option Nat := none
  keyword : String := ""
deriving Repr, DecidableEq, Inhabited

/-- Comparison used to model the sort `(a, b) => new Date(b.pubDate) - new
Date(a.pubDate)`: newest first. -/
def pubDateDesc (a b : Article) : Bool := b.pubDate ≤ a.pubDate

/-- Keyword test from `getArticles` in `src/server/db.js`: case-insensitive
substring match against `title`, or against `summary` when `summary` is
truthy.  `kw` is the already-lowercased keyword. -/
def keywordMatches (kw : String) (a : Article) : Bool :=
  jsIncludes (jsLower a.title) kw ||
    (a.summary != "" && jsIncludes (jsLower a.summary) kw)

/-- Embedding of `getArticles` from `src/server/db.js`: sequentially applies
the source, startDate, endDate and keyword filters that are present, then
sorts by `pubDate` descending.  Note that `filters.category` is never read. -/
def getArticles (store : List Article) (filters : ArticleFilters) : List Article :=
  let l0 : List Article := store
  let l1 : List Article :=
    if filters.source != "" then l0.filter (fun a => a.source == filters.source) else l0
  let l2 : List Article := match filters.startDate with
    | some d => l1.filter (fun a => startOfDay d ≤ a.pubDate)
    | none => l1
  let l3 : List Article := match filters.endDate with
    | some d => l2.filter (fun a => a.pubDate ≤ endOfDay d)
    | none => l2
  let l4 : List Article :=
    if filters.keyword != "" then l3.filter (keywordMatches (jsLower filters.keyword)) else l3
  l4.mergeSort pubDateDesc

/-- Written from the specification's words for the query contract (§4.1 and
claim C6): an article satisfies all supplied filters, **including** the
`category` filter, with AND semantics; keyword is a case-insensitive
substring of title or summary; date bounds are inclusive with `startDate`
normalized to start-of-day and `endDate` to end-of-day. -/
def querySpecMatches (f : ArticleFilters) (a : Article) : Bool :=
  (f.source == "" || a.source == f.source) &&
  (f.category == "" || a.category == f.category) &&
  (match f.startDate with | none => true | some d => decide (startOfDay d ≤ a.pubDate)) &&
  (match f.endDate with | none => true | some d => decide (a.pubDate ≤ endOfDay d)) &&
  (f.keyword == "" || keywordMatches (jsLower f.keyword) a)

/-- The same specification predicate with the `category` conjunct removed:
this is what the code actually implements. -/
def querySpecMatchesNoCategory (f : ArticleFilters) (a : Article) : Bool :=
  (f.source == "" || a.source == f.source) &&
  (match f.startDate with | none => true | some d => decide (startOfDay d ≤ a.pubDate)) &&
  (match f.endDate with | none => true | some d => decide (a.pubDate ≤ endOfDay d)) &&
  (f.keyword == "" || keywordMatches (jsLower f.keyword) a)

/-- Identifier attached to an embedded article record: the AI path uses the
numeric index (`id: index`), the fallback path uses the article link
(`id: article.link`). -/
inductive JsId where
  | num : Nat → JsId
  | str : String → JsId
deriving Repr, DecidableEq

/-- Per-article summary record built by `generateInsights`
(`src/unnamed/part_004`) and consumed by `ensureSourceCoverage`. -/
structure SummaryEntry where
  id : JsId
  title : String := ""
  summary : String := ""
  source : String := ""
  link : String := ""
  pubDate : Nat := 0
deriving Repr, DecidableEq

/-- Theme-level action object `{action, impact}` from the model response. -/
structure ThemeAction where
  action : String := ""
  impact : String := ""
deriving Repr, DecidableEq

/-- Insight with its embedded (denormalized) article records. -/
structure Insight where
  text : String := ""
  articles : List SummaryEntry := []
deriving Repr, DecidableEq

/-- Resolved theme as returned by `generateInsights`. -/
structure Theme where
  name : String := ""
  icon : String := ""
  insights : List Insight := []
  actions : List ThemeAction := []
deriving Repr, DecidableEq, Inhabited

/-- Raw insight inside the parsed model response, holding article ids. -/
structure RawInsight where
  text : String := ""
  articleIds : List Int := []
deriving Repr, DecidableEq

/-- Raw theme inside the parsed model response. -/
structure RawTheme where
  name : String := ""
  icon : String := ""
  insights : List RawInsight := []
  actions : List ThemeAction := []
deriving Repr, DecidableEq

/-- Top-level recommended action in the parsed model response. -/
structure RecommendedAction where
  action : String := ""
  rationale : String := ""
  category : String := ""
deriving Repr, DecidableEq

/-- Shape of a successfully parsed model response. -/
structure InsightsData where
  recommendedActions : List RecommendedAction := []
  themes : List RawTheme := []
deriving Repr, DecidableEq

/-- Result object returned by `generateInsights`; absent JavaScript fields
are modelled by the defaults (`""`, `false`, `0`). -/
structure GenResult where
  success : Bool := false
  message : String := ""
  themes : List Theme := []
  articleCount : Nat := 0
  generatedAt : String := ""
  fallback : Bool := false
deriving Repr, DecidableEq

/-- Summary text used when preparing articles for the model:
`article.summary || article.originalContent?.substring(0, 200) || ''`. -/
def summaryOf (a : Article) : String :=
  if a.summary != "" then a.summary else jsTake a.originalContent 200

/-- Article summaries handed to the model: the first 50 articles, each with
its index as id (`generateInsights`, `src/unnamed/part_004`). -/
def mkSummaries (articles : List Article) : List SummaryEntry :=
  (articles.take 50).enum.map (fun p =>
    { id := .num p.1, title := p.2.title, summary := summaryOf p.2,
      source := p.2.source, link := p.2.link, pubDate := p.2.pubDate })

/-- Resolution of one raw insight: `insight.articleIds.map(id =>
articleSummaries[id]).filter(a => a)` — out-of-range ids are dropped. -/
def resolveInsight (summaries : List SummaryEntry) (i : RawInsight) : Insight :=
  { text := i.text,
    articles := i.articleIds.filterMap (fun id =>
      if id < 0 then none else summaries.get? id.toNat) }

/-- Mapping article ids back to summary records for every theme
(`themesWithArticles` in `generateInsights`). -/
def resolveThemes (data : InsightsData) (summaries : List SummaryEntry) : List Theme :=
  data.themes.map (fun t =>
    { name := t.name, icon := t.icon, actions := t.actions,
      insights := t.insights.map (resolveInsight summaries) })

/-- Does a theme name qualify as the catch-all commentary theme?  From the
`themes.find` predicate in `ensureSourceCoverage`. -/
def isCommentaryName (n : String) : Bool :=
  jsIncludes (jsLower n) "commentary" ||
  jsIncludes (jsLower n) "roundup" ||
  jsIncludes (jsLower n) "industry news"

/-- Membership test of the `representedSources` set built by
`ensureSourceCoverage`: a source is added only when the embedded article and
its `source` field are truthy. -/
def sourceRepresented (themes : List Theme) (s : String) : Bool :=
  themes.any (fun t => t.insights.any (fun i =>
    i.articles.any (fun a => a.source != "" && a.source == s)))

/-- Synthesized insight for one missing source (the body of the
`missingSources.forEach` loop in `ensureSourceCoverage`); `none` when the
source has no articles, mirroring the `sourceArticles.length > 0` guard. -/
def coverageInsight (summaries : List SummaryEntry) (s : String) : Option Insight :=
  match summaries.filter (fun a => a.source == s) with
  | [] => none
  | a :: rest =>
    let sourceArticles := a :: rest
    let articleTitles := String.intercalate "; " ((sourceArticles.take 3).map (fun x => x.title))
    let text :=
      if sourceArticles.length == 1 then
        s ++ " provides commentary: " ++ a.title
      else
        s ++ " covers " ++ toString sourceArticles.length ++ " topics including " ++
          jsTake articleTitles 150 ++ (if articleTitles.length > 150 then "..." else "")
    some { text := text, articles := sourceArticles.take 5 }

/-- Fresh catch-all theme created by `ensureSourceCoverage` when no existing
theme name matches; the JavaScript object carries no `actions` field. -/
def freshCommentaryTheme : Theme :=
  { name := "Industry Commentary & Updates", icon := "💬", insights := [], actions := [] }

/-- The `allSources` list of `ensureSourceCoverage`:
`[...new Set(articleSummaries.map(a => a.source))]`. -/
def allSourcesOf (summaries : List SummaryEntry) : List String :=
  jsDistinct (summaries.map (fun a => a.source))

/-- The `missingSources` list of `ensureSourceCoverage`: the sources not yet
present in the represented-sources set. -/
def missingSourcesOf (themes : List Theme) (summaries : List SummaryEntry) : List String :=
  (allSourcesOf summaries).filter (fun s => !sourceRepresented themes s)

/-- The synthesized insights appended by `ensureSourceCoverage`, one per
missing source that has at least one article. -/
def newInsightsOf (themes : List Theme) (summaries : List SummaryEntry) : List Insight :=
  (missingSourcesOf themes summaries).filterMap (coverageInsight summaries)

/-- Embedding of `ensureSourceCoverage` (`src/unnamed/part_004`): compute the
sources missing from the insights, short-circuit when none are missing,
otherwise append one synthesized insight per missing source to the first
commentary-named theme (or to a fresh appended one). -/
def ensureSourceCoverage (themes : List Theme) (summaries : List SummaryEntry) : List Theme :=
  if (missingSourcesOf themes summaries).isEmpty then
    themes
  else
    let newInsights := newInsightsOf themes summaries
    match themes.findIdx? (fun t => isCommentaryName t.name) with
    | some i =>
      let t := themes.getD i default
      themes.set i { t with insights := t.insights ++ newInsights }
    | none =>
      themes ++ [{ freshCommentaryTheme with insights := newInsights }]

/-- Embedded article record used by the fallback path, which keys the record
by link (`id: article.link` in `getFallbackInsights`). -/
def fallbackEntry (a : Article) : SummaryEntry :=
  { id := .str a.link, title := a.title, summary := a.summary,
    source := a.source, link := a.link, pubDate := a.pubDate }

/-- Insight text of a fallback theme:
`"N recent article(s) from SOURCE"`. -/
def fallbackText (s : String) (n : Nat) : String :=
  toString n ++ " recent article" ++ (if n > 1 then "s" else "") ++ " from " ++ s

/-- Embedding of `getFallbackInsights` (`src/unnamed/part_004`): group the
articles by source in first-occurrence order and emit one theme per distinct
source, each holding a single count insight with at most 5 embedded
articles. -/
def getFallbackInsights (articles : List Article) (now : String) : GenResult :=
  let themes : List Theme :=
    (jsDistinct (articles.map (fun a => a.source))).map (fun s =>
      let sourceArticles := (articles.filter (fun a => a.source == s)).map fallbackEntry
      { name := s ++ " Updates", icon := "📰",
        insights := [{ text := fallbackText s sourceArticles.length,
                       articles := sourceArticles.take 5 }],
        actions := [] })
  { success := true, themes := themes, articleCount := articles.length,
    generatedAt := now, fallback := true }

/-- Run record for one `generateInsights` invocation: the returned value plus
whether the LLM endpoint was contacted. -/
structure GenRun where
  result : GenResult
  llmCalled : Bool
deriving Repr, DecidableEq

/-- Embedding of `generateInsights` (`src/unnamed/part_004`).  `apiKeySet`
models `process.env.ANTHROPIC_API_KEY`; `parse` models the regex JSON
extraction plus `JSON.parse` applied to the raw model text (`none` on any
parse failure); the enclosing try/catch turns every failure into the
fallback result. -/
def generateInsightsRun (apiKeySet : Bool) (parse : String → Option InsightsData)
    (responseText : String) (now : String) (articles : List Article) : GenRun :=
  if articles.isEmpty then
    { result := { success := false, message := "No articles to analyze", themes := [] },
      llmCalled := false }
  else if !apiKeySet then
    { result := getFallbackInsights articles now, llmCalled := false }
  else
    let summaries := mkSummaries articles
    match parse responseText with
    | none => { result := getFallbackInsights articles now, llmCalled := true }
    | some data =>
      let finalThemes := ensureSourceCoverage (resolveThemes data summaries) summaries
      { result := { success := true, themes := finalThemes,
                    articleCount := articles.length, generatedAt := now },
        llmCalled := true }

/-- Archived insight record (`insights_archive` row): the persisted
`InsightSet` plus `id` and `generatedAt` (milliseconds). -/
structure ArchivedRecord where
  id : Nat := 0
  category : String := ""
  insights : GenResult := {}
  dateRangeStart : Option Nat := none
  dateRangeEnd : Option Nat := none
  generatedAt : Nat := 0
deriving Repr, DecidableEq

/-- State of the two cache tiers: the process-wide in-memory map keyed by
category, a chronological log of in-memory updates (to count them), and the
persistent archive held newest-first. -/
structure CacheState where
  memory : List (String × GenResult) := []
  memoryLog : List (String × GenResult) := []
  archive : List ArchivedRecord := []
  nextId : Nat := 0
deriving Repr, DecidableEq

/-- Modelled from the spec: the archive-backed `getTodaysInsights` of
`server/db.js` is imported by `server/index.js` but its implementation is
not among the repository's source files.  Spec §4.2 (state FRESH-TODAY): an
archived record for this category whose `generatedAt` falls within the
current calendar day is returned directly; otherwise `null`. -/
def getTodaysInsights (st : CacheState) (now : Nat) (category : String) : Option ArchivedRecord :=
  st.archive.find? (fun r => r.category == category && sameDay r.generatedAt now)

/-- Modelled from the spec: the deduplicating `saveInsights` of
`server/db.js` is imported by `server/index.js` but its implementation is
not among the repository's source files.  Spec §4.2: always update the
in-memory tier; archive a new record unless the most recent archived record
for this category was created within the last hour (1-hour dedup); return
the persisted record. -/
def saveInsights (st : CacheState) (now : Nat) (insights : GenResult) (category : String)
    (dateRangeStart dateRangeEnd : Option Nat) : CacheState × ArchivedRecord :=
  let memory' := (category, insights) :: st.memory.filter (fun p => p.1 != category)
  let memoryLog' := st.memoryLog ++ [(category, insights)]
  match st.archive.find? (fun r => r.category == category && now - r.generatedAt < hourMs) with
  | some r =>
    ({ st with memory := memory', memoryLog := memoryLog' }, r)
  | none =>
    let rec' : ArchivedRecord :=
      { id := st.nextId, category := category, insights := insights,
        dateRangeStart := dateRangeStart, dateRangeEnd := dateRangeEnd, generatedAt := now }
    ({ st with
        memory := memory', memoryLog := memoryLog',
        archive := rec' :: st.archive, nextId := st.nextId + 1 }, rec')

/-- Embedding of `isValidCategory` (`src/unnamed/part_002`): absent or empty
(falsy) categories pass; otherwise the value must belong to the closed
enumeration. -/
def isValidCategory (category : Option String) : Bool :=
  match category with
  | none => true
  | some c =>
    c == "" || ["mortgage", "product-management", "competitor-intel", "all"].contains c

/-- Embedding of `sanitizeString` (`src/unnamed/part_002`): trim and cap the
length. -/
def sanitizeString (s : String) (maxLength : Nat) : String := jsTake s.trim maxLength

/-- Query parameters of `GET /api/articles`; `none` models an absent
parameter (dates are already parsed to timestamps). -/
structure ArticlesRequest where
  category : Option String := none
  source : Option String := none
  startDate : Option Nat := none
  endDate : Option Nat := none
  keyword : Option String := none
deriving Repr, DecidableEq

/-- Observable outcome of one `GET /api/articles` request: HTTP status,
whether the store was queried, and the returned articles. -/
structure ArticlesRun where
  status : Nat
  storeQueried : Bool
  articles : List Article
deriving Repr, DecidableEq

/-- Embedding of the `GET /api/articles` handler (`src/unnamed/part_002`):
reject an invalid category with 400 before querying the store, otherwise
sanitize the string filters and delegate to `getArticles`.  The handler's
`isValidDate` guard is vacuous here because dates are modelled as already
parsed timestamps. -/
def getArticlesHandler (store : List Article) (req : ArticlesRequest) : ArticlesRun :=
  if !isValidCategory req.category then
    { status := 400, storeQueried := false, articles := [] }
  else
    let filters : ArticleFilters :=
      { category := sanitizeString (req.category.getD "") 50,
        source := sanitizeString (req.source.getD "") 100,
        startDate := req.startDate, endDate := req.endDate,
        keyword := sanitizeString (req.keyword.getD "") 100 }
    { status := 200, storeQueried := true, articles := getArticles store filters }

/-- Body of one `POST /api/insights` request; `articles := none` models a
missing or non-array body field, and the category defaults to `"all"` only
when absent. -/
structure InsightsRequest where
  articles : Option (List Article) := none
  category : Option String := none
deriving Repr, DecidableEq

/-- Response of the `POST /api/insights` handler. -/
inductive InsightsResponse where
  | badRequest : InsightsResponse
  | cached : ArchivedRecord → InsightsResponse
  | generated : GenResult → InsightsResponse
deriving Repr, DecidableEq

/-- Observable outcome of one `POST /api/insights` request: the response,
whether the cache tier was read, whether the LLM was invoked, and the
updated cache state. -/
structure InsightsRun where
  response : InsightsResponse
  cacheRead : Bool
  llmCalled : Bool
  state : CacheState
deriving Repr, DecidableEq

/-- Embedding of the `POST /api/insights` handler (`src/unnamed/part_002`):
validate that `articles` is an array, read the cache (`getTodaysInsights`)
and short-circuit on a hit, otherwise generate, compute the article date
range, save through both tiers, and respond with the generated insights.
The handler performs no category validation. -/
def postInsightsHandler (st : CacheState) (now : Nat) (apiKeySet : Bool)
    (parse : String → Option InsightsData) (responseText : String) (nowStr : String)
    (req : InsightsRequest) : InsightsRun :=
  match req.articles with
  | none => { response := .badRequest, cacheRead := false, llmCalled := false, state := st }
  | some articles =>
    let category := req.category.getD "all"
    match getTodaysInsights st now category with
    | some r => { response := .cached r, cacheRead := true, llmCalled := false, state := st }
    | none =>
      let run := generateInsightsRun apiKeySet parse responseText nowStr articles
      let dates := articles.map (fun a => a.pubDate)
      let (st', _) := saveInsights st now run.result category dates.min? dates.max?
      { response := .generated run.result, cacheRead := true, llmCalled := run.llmCalled,
        state := st' }

/-- Distinct sources of an article list, in first-occurrence order; this is
both the fallback grouping key set and the coverage obligation of spec §4.4. -/
def distinctSources (articles : List Article) : List String :=
  jsDistinct (articles.map (fun a => a.source))

/-- A source value appears in at least one insight's embedded articles
across all themes (spec §3, source-coverage invariant). -/
def SourceEmbedded (themes : List Theme) (s : String) : Prop :=
  ∃ t ∈ themes, ∃ i ∈ t.insights, ∃ a ∈ i.articles, a.source = s

/-- Concrete parser that fails on every response text: models an LLM reply
with no extractable JSON payload. -/
def pfNone : String → Option InsightsData := fun _ => none

/-- Concrete parser that accepts every response as an empty payload. -/
def pfEmptyThemes : String → Option InsightsData := fun _ => some {}

/-- Concrete mortgage article fixture. -/
def artX : Article :=
  { title := "Rates rise", link := "a1", source := "X", category := "mortgage",
    summary := "summary one", pubDate := 10 }

/-- Concrete product-management article fixture. -/
def artPM : Article :=
  { title := "PM weekly", link := "b1", source := "Y", category := "product-management",
    summary := "summary two", pubDate := 5 }

/-- Article-summary fixture whose `source` is the empty string (falsy in
JavaScript). -/
def emptySourceEntry : SummaryEntry :=
  { id := .num 0, title := "T", source := "", link := "l" }

/-- Filter fixture supplying only the `category` filter. -/
def fMortgage : ArticleFilters := { category := "mortgage" }

/-- Archived-record fixture generated at millisecond 100 of day 0. -/
def recToday : ArchivedRecord :=
  { id := 1, category := "mortgage", insights := { success := true }, generatedAt := 100 }

/-- Cache-state fixture holding exactly the one archived record. -/
def stOne : CacheState := { archive := [recToday], nextId := 2 }

/-- Empty cache-state fixture. -/
def emptyCache : CacheState := {}

/-- Default-valued insight-set fixture. -/
def insA : GenResult := {}

/-- Successful insight-set fixture. -/
def insB : GenResult := { success := true }

theorem foldl_jsDistinct_mem (l : List String) : ∀ (acc : List String) (s : String),
    (s ∈ l.foldl (fun acc s => if acc.contains s then acc else acc ++ [s]) acc ↔
      s ∈ acc ∨ s ∈ l) := by
  induction l with
  | nil => intro acc s; simp
  | cons a t ih =>
    intro acc s
    simp only [List.foldl_cons]
    rw [ih]
    by_cases ha : a ∈ acc
    · simp [ha]
      constructor
      · rintro (h | h)
        · exact Or.inl h
        · exact Or.inr (Or.inr h)
      · rintro (h | h | h)
        · exact Or.inl h
        · exact Or.inl (h ▸ ha)
        · exact Or.inr h
    · simp [ha, List.mem_append]
      constructor
      · rintro ((h | h) | h)
        · exact Or.inl h
        · exact Or.inr (Or.inl h)
        · exact Or.inr (Or.inr h)
      · rintro (h | h | h)
        · exact Or.inl (Or.inl h)
        · exact Or.inl (Or.inr h)
        · exact Or.inr h

theorem mem_jsDistinct {l : List String} {s : String} : s ∈ jsDistinct l ↔ s ∈ l := by
  unfold jsDistinct
  rw [foldl_jsDistinct_mem]
  simp

/-- Claim C8: `generateInsights` applied to an empty article list returns a
result with `success = false` and no themes, and does not contact the LLM. -/
theorem empty_input_no_llm (apiKeySet : Bool) (parse : String → Option InsightsData)
    (responseText now : String) :
    (generateInsightsRun apiKeySet parse responseText now []).result.success = false ∧
    (generateInsightsRun apiKeySet parse responseText now []).result.themes = [] ∧
    (generateInsightsRun apiKeySet parse responseText now []).llmCalled = false := by
  simp [generateInsightsRun]

theorem generateInsightsRun_malformed (parse : String → Option InsightsData)
    (resp now : String) (articles : List Article)
    (hne : articles ≠ []) (hparse : parse resp = none) :
    generateInsightsRun true parse resp now articles =
      { result := getFallbackInsights articles now, llmCalled := true } := by
  simp [generateInsightsRun, List.isEmpty_iff, hne, hparse]

/-- Claim C2: on a malformed (non-parseable) model response, generation
falls back to the deterministic grouping: result marked `fallback`, one
theme per distinct input source, each carrying a single article-count
insight; no error is propagated. -/
theorem fallback_on_malformed (parse : String → Option InsightsData)
    (resp now : String) (articles : List Article)
    (hne : articles ≠ []) (hparse : parse resp = none) :
    (generateInsightsRun true parse resp now articles).result = getFallbackInsights articles now ∧
    (generateInsightsRun true parse resp now articles).result.fallback = true ∧
    (generateInsightsRun true parse resp now articles).result.themes.length
      = (distinctSources articles).length ∧
    ∀ s ∈ distinctSources articles,
      ∃ t ∈ (generateInsightsRun true parse resp now articles).result.themes,
        t.name = s ++ " Updates" ∧ t.insights.length = 1 ∧
        ∀ i ∈ t.insights,
          i.text = fallbackText s (articles.filter (fun a => a.source == s)).length := by
  rw [generateInsightsRun_malformed parse resp now articles hne hparse]
  refine ⟨rfl, rfl, ?_, ?_⟩
  · simp [getFallbackInsights, distinctSources]
  · intro s hs
    simp only [distinctSources] at hs
    refine ⟨_, List.mem_map_of_mem _ hs, rfl, rfl, ?_⟩
    intro i hi
    simp only [List.mem_singleton] at hi
    subst hi
    simp [fallbackText]

/-- Witness for `fallback_on_malformed` at a concrete article list and a
parser that rejects every response. -/
theorem fallback_on_malformed_witness :
    ((([artX] : List Article) ≠ []) ∧ pfNone "r" = none) ∧
    ((generateInsightsRun true pfNone "r" "t" [artX]).result = getFallbackInsights [artX] "t" ∧
     (generateInsightsRun true pfNone "r" "t" [artX]).result.fallback = true ∧
     (generateInsightsRun true pfNone "r" "t" [artX]).result.themes.length
       = (distinctSources [artX]).length ∧
     ∀ s ∈ distinctSources [artX],
       ∃ t ∈ (generateInsightsRun true pfNone "r" "t" [artX]).result.themes,
         t.name = s ++ " Updates" ∧ t.insights.length = 1 ∧
         ∀ i ∈ t.insights,
           i.text = fallbackText s (([artX] : List Article).filter (fun a => a.source == s)).length) :=
  ⟨⟨by decide, rfl⟩, fallback_on_malformed pfNone "r" "t" [artX] (by decide) rfl⟩

/-- Claim C9 (amended): every result whose `success` flag is set carries
`articleCount = articles.length`, the raw input list length. -/
theorem articleCount_eq_input_length (apiKeySet : Bool) (parse : String → Option InsightsData)
    (resp now : String) (articles : List Article)
    (hsucc : (generateInsightsRun apiKeySet parse resp now articles).result.success = true) :
    (generateInsightsRun apiKeySet parse resp now articles).result.articleCount
      = articles.length := by
  unfold generateInsightsRun at hsucc ⊢
  by_cases he : articles.isEmpty
  · simp [he] at hsucc
  · cases apiKeySet with
    | false => simp [he, getFallbackInsights]
    | true =>
      cases hp : parse resp with
      | none => simp [he, hp, getFallbackInsights]
      | some d => simp [he, hp]

/-- Witness for `articleCount_eq_input_length` at a concrete successful run. -/
theorem articleCount_eq_input_length_witness :
    (generateInsightsRun true pfEmptyThemes "r" "t" [artX]).result.success = true ∧
    (generateInsightsRun true pfEmptyThemes "r" "t" [artX]).result.articleCount
      = ([artX] : List Article).length :=
  ⟨by decide, articleCount_eq_input_length true pfEmptyThemes "r" "t" [artX] (by decide)⟩

/-- Counterexample to claim C9 as stated: with a duplicated input article
(`link` is the identity of an article, spec §3), a successful run reports
`articleCount = 2` while the deduplicated count of the generation input
is 1. -/
theorem articleCount_not_deduplicated :
    (generateInsightsRun true pfEmptyThemes "r" "t" [artX, artX]).result.success = true ∧
    (generateInsightsRun true pfEmptyThemes "r" "t" [artX, artX]).result.articleCount = 2 ∧
    (jsDistinct (([artX, artX] : List Article).map (fun a => a.link))).length = 1 := by
  refine ⟨by decide, by decide, by decide⟩

theorem sourceRepresented_iff {themes : List Theme} {s : String} :
    sourceRepresented themes s = true ↔
      ∃ t ∈ themes, ∃ i ∈ t.insights, ∃ a ∈ i.articles, a.source ≠ "" ∧ a.source = s := by
  simp [sourceRepresented, List.any_eq_true, Bool.and_eq_true, bne_iff_ne, beq_iff_eq]

theorem sourceEmbedded_of_represented {themes : List Theme} {s : String}
    (h : sourceRepresented themes s = true) : SourceEmbedded themes s := by
  obtain ⟨t, ht, i, hi, a, ha, _, hsrc⟩ := sourceRepresented_iff.mp h
  exact ⟨t, ht, i, hi, a, ha, hsrc⟩

theorem sourceEmbedded_append {themes ts : List Theme} {s : String}
    (h : SourceEmbedded themes s) : SourceEmbedded (themes ++ ts) s := by
  obtain ⟨t, ht, i, hi, a, ha, hsrc⟩ := h
  exact ⟨t, List.mem_append_left _ ht, i, hi, a, ha, hsrc⟩

theorem getD_eq_getElem_of_lt {l : List Theme} {i : Nat} (h : i < l.length) :
    l.getD i default = l[i] := by
  simp [List.getD_eq_getElem?_getD, List.getElem?_eq_getElem h]

theorem sourceEmbedded_set_append {themes : List Theme} {i : Nat} {extra : List Insight}
    {s : String} (hi : i < themes.length) (h : SourceEmbedded themes s) :
    SourceEmbedded
      (themes.set i
        { themes.getD i default with
            insights := (themes.getD i default).insights ++ extra }) s := by
  obtain ⟨t, ht, ins, hins, a, ha, hsrc⟩ := h
  rw [List.mem_iff_getElem] at ht
  obtain ⟨j, hj, hjt⟩ := ht
  by_cases hji : j = i
  · subst hji
    refine ⟨{ themes.getD j default with
                insights := (themes.getD j default).insights ++ extra },
            ?_, ins, ?_, a, ha, hsrc⟩
    · have hlen : j < (themes.set j
          { themes.getD j default with
              insights := (themes.getD j default).insights ++ extra }).length := by
        simpa using hj
      have := List.getElem_mem hlen
      rwa [List.getElem_set_self] at this
    · refine List.mem_append_left _ ?_
      rw [getD_eq_getElem_of_lt hj, hjt]
      exact hins
  · refine ⟨t, ?_, ins, hins, a, ha, hsrc⟩
    have hlen : j < (themes.set i
        { themes.getD i default with
            insights := (themes.getD i default).insights ++ extra }).length := by
      simpa using hj
    have := List.getElem_mem hlen
    rwa [List.getElem_set_ne (fun h => hji h.symm), hjt] at this

theorem findIdx?_lt_length_and_pred {p : Theme → Bool} {l : List Theme} {i : Nat}
    (h : l.findIdx? p = some i) : i < l.length ∧ p (l.getD i default) = true := by
  rw [List.findIdx?_eq_some_iff_getElem] at h
  obtain ⟨hlt, hp, _⟩ := h
  exact ⟨hlt, by rwa [getD_eq_getElem_of_lt hlt]⟩

theorem ensureSourceCoverage_cases (themes : List Theme) (summaries : List SummaryEntry) :
    ensureSourceCoverage themes summaries = themes ∨
    (∃ i, i < themes.length ∧ isCommentaryName (themes.getD i default).name = true ∧
      ensureSourceCoverage themes summaries =
        themes.set i
          { themes.getD i default with
              insights := (themes.getD i default).insights
                ++ newInsightsOf themes summaries }) ∨
    ensureSourceCoverage themes summaries =
      themes ++ [{ freshCommentaryTheme with insights := newInsightsOf themes summaries }] := by
  unfold ensureSourceCoverage
  by_cases hm : (missingSourcesOf themes summaries).isEmpty
  · left; simp [hm]
  · cases hidx : themes.findIdx? (fun t => isCommentaryName t.name) with
    | some i =>
      obtain ⟨hlt, hp⟩ := findIdx?_lt_length_and_pred hidx
      right; left
      exact ⟨i, hlt, hp, by simp [hm, hidx]⟩
    | none =>
      right; right
      simp [hm, hidx]

/-- Claim C10: `ensureSourceCoverage` only appends.  The output is either
exactly the input themes, or the input with one commentary-named theme's
insight list extended at the end, or the input with a single fresh
commentary theme appended; no pre-existing theme or insight is dropped,
reordered or rewritten. -/
theorem ensureSourceCoverage_frame (themes : List Theme) (summaries : List SummaryEntry) :
    ensureSourceCoverage themes summaries = themes ∨
    (∃ i, i < themes.length ∧ isCommentaryName (themes.getD i default).name = true ∧
      ensureSourceCoverage themes summaries =
        themes.set i
          { themes.getD i default with
              insights := (themes.getD i default).insights
                ++ newInsightsOf themes summaries }) ∨
    ensureSourceCoverage themes summaries =
      themes ++ [{ freshCommentaryTheme with insights := newInsightsOf themes summaries }] :=
  ensureSourceCoverage_cases themes summaries

theorem mem_set_self {α : Type _} {l : List α} {i : Nat} (h : i < l.length) (v : α) :
    v ∈ l.set i v := by
  have hlen : i < (l.set i v).length := by simpa using h
  have hmem := List.getElem_mem hlen
  rwa [List.getElem_set_self] at hmem

theorem coverageInsight_sound (summaries : List SummaryEntry) (s : String)
    (hs : s ∈ summaries.map (fun a => a.source)) :
    ∃ ins, coverageInsight summaries s = some ins ∧ ∃ a ∈ ins.articles, a.source = s := by
  obtain ⟨a0, ha0, hsrc0⟩ := List.mem_map.mp hs
  have hmemf : a0 ∈ summaries.filter (fun a => a.source == s) := by
    rw [List.mem_filter]
    exact ⟨ha0, by simp [hsrc0]⟩
  cases hfil : summaries.filter (fun a => a.source == s) with
  | nil => rw [hfil] at hmemf; cases hmemf
  | cons a rest =>
    have hasrc : a.source = s := by
      have : a ∈ summaries.filter (fun x => x.source == s) := by rw [hfil]; exact List.mem_cons_self a rest
      have := (List.mem_filter.mp this).2
      simpa using this
    unfold coverageInsight
    rw [hfil]
    refine ⟨_, rfl, a, ?_, hasrc⟩
    cases rest <;> simp

theorem sourceEmbedded_coverage (themes : List Theme) (summaries : List SummaryEntry)
    (s : String) (hs : s ∈ summaries.map (fun a => a.source)) :
    SourceEmbedded (ensureSourceCoverage themes summaries) s := by
  by_cases hrep : sourceRepresented themes s = true
  · have hemb := sourceEmbedded_of_represented hrep
    rcases ensureSourceCoverage_cases themes summaries with h | ⟨i, hlt, _, h⟩ | h
    · rwa [h]
    · rw [h]; exact sourceEmbedded_set_append hlt hemb
    · rw [h]; exact sourceEmbedded_append hemb
  · have hall : s ∈ allSourcesOf summaries := by
      unfold allSourcesOf
      exact mem_jsDistinct.mpr hs
    have hmiss : s ∈ missingSourcesOf themes summaries := by
      unfold missingSourcesOf
      rw [List.mem_filter]
      exact ⟨hall, by simp [hrep]⟩
    obtain ⟨ins, hci, a, hain, hsrc⟩ := coverageInsight_sound summaries s hs
    have hinnew : ins ∈ newInsightsOf themes summaries :=
      List.mem_filterMap.mpr ⟨s, hmiss, hci⟩
    have hne : (missingSourcesOf themes summaries).isEmpty = false := by
      cases hmv : missingSourcesOf themes summaries with
      | nil => rw [hmv] at hmiss; cases hmiss
      | cons x xs => simp
    unfold ensureSourceCoverage
    rw [hne]
    simp only [Bool.false_eq_true, if_false]
    cases hidx : themes.findIdx? (fun t => isCommentaryName t.name) with
    | some i =>
      obtain ⟨hlt, _⟩ := findIdx?_lt_length_and_pred hidx
      refine ⟨_, mem_set_self hlt _, ins, List.mem_append_right _ hinnew, a, hain, hsrc⟩
    | none =>
      refine ⟨_, List.mem_append_right _ (List.mem_singleton_self _), ins, hinnew, a, hain, hsrc⟩

/-- Claim C1: after `ensureSourceCoverage`, every source occurring in the
article summaries appears in at least one insight's embedded articles
across the returned themes. -/
theorem source_coverage (themes : List Theme) (summaries : List SummaryEntry) (s : String)
    (hs : s ∈ summaries.map (fun a => a.source)) :
    SourceEmbedded (ensureSourceCoverage themes summaries) s :=
  sourceEmbedded_coverage themes summaries s hs

/-- Witness for `source_coverage` at a concrete theme-free run over one
summary entry. -/
theorem source_coverage_witness :
    ("X" ∈ ([{ emptySourceEntry with source := "X" }] : List SummaryEntry).map
        (fun a => a.source)) ∧
    SourceEmbedded (ensureSourceCoverage [] [{ emptySourceEntry with source := "X" }]) "X" :=
  ⟨by decide, source_coverage [] [{ emptySourceEntry with source := "X" }] "X" (by decide)⟩

/-- Counterexample to claim C5 as stated: with a summary entry whose
`source` is the empty string (falsy in JavaScript), the represented-sources
check never registers the source, so a second repair pass appends a
duplicate synthesized insight. -/
theorem coverage_repair_not_idempotent :
    ensureSourceCoverage (ensureSourceCoverage [] [emptySourceEntry]) [emptySourceEntry] ≠
      ensureSourceCoverage [] [emptySourceEntry] := by
  decide

/-- Claim C5 (amended): `ensureSourceCoverage` is idempotent on summary
lists whose sources are all non-empty (truthy): the second run's
missing-source check short-circuits. -/
theorem coverage_repair_idempotent (themes : List Theme) (summaries : List SummaryEntry)
    (hne : ∀ a ∈ summaries, a.source ≠ "") :
    ensureSourceCoverage (ensureSourceCoverage themes summaries) summaries =
      ensureSourceCoverage themes summaries := by
  have hrep : ∀ s ∈ allSourcesOf summaries,
      sourceRepresented (ensureSourceCoverage themes summaries) s = true := by
    intro s hsAll
    unfold allSourcesOf at hsAll
    have hsmem : s ∈ summaries.map (fun a => a.source) := mem_jsDistinct.mp hsAll
    have hsne : s ≠ "" := by
      obtain ⟨a0, ha0, hsrc0⟩ := List.mem_map.mp hsmem
      rw [← hsrc0]
      exact hne a0 ha0
    obtain ⟨t, ht, i, hi, a, ha, hsrc⟩ := sourceEmbedded_coverage themes summaries s hsmem
    rw [sourceRepresented_iff]
    exact ⟨t, ht, i, hi, a, ha, by rw [hsrc]; exact hsne, hsrc⟩
  have hmiss : missingSourcesOf (ensureSourceCoverage themes summaries) summaries = [] := by
    unfold missingSourcesOf
    rw [List.filter_eq_nil_iff]
    intro s hsAll
    simp [hrep s hsAll]
  rw [ensureSourceCoverage, hmiss]
  simp

/-- Witness for `coverage_repair_idempotent` on a concrete truthy-source
summary list. -/
theorem coverage_repair_idempotent_witness :
    (∀ a ∈ ([{ emptySourceEntry with source := "X" }] : List SummaryEntry), a.source ≠ "") ∧
    ensureSourceCoverage
        (ensureSourceCoverage [] [{ emptySourceEntry with source := "X" }])
        [{ emptySourceEntry with source := "X" }] =
      ensureSourceCoverage [] [{ emptySourceEntry with source := "X" }] :=
  ⟨by decide, coverage_repair_idempotent [] [{ emptySourceEntry with source := "X" }] (by decide)⟩

theorem find?_eq_some_of_unique {α : Type _} {p : α → Bool} {l : List α} {r : α}
    (hmem : r ∈ l) (hp : p r = true)
    (huniq : ∀ x ∈ l, p x = true → x = r) : l.find? p = some r := by
  induction l with
  | nil => cases hmem
  | cons a t ih =>
    by_cases hpa : p a = true
    · have : a = r := huniq a (List.mem_cons_self a t) hpa
      subst this
      simp [List.find?_cons, hpa]
    · have hne : a ≠ r := fun h => hpa (h ▸ hp)
      have hrt : r ∈ t := by
        cases List.mem_cons.mp hmem with
        | inl h => exact absurd h.symm hne
        | inr h => exact h
      have hpa' : p a = false := by rwa [Bool.not_eq_true] at hpa
      rw [List.find?_cons, hpa']
      exact ih hrt (fun x hx hpx => huniq x (List.mem_cons_of_mem a hx) hpx)

/-- Claim C3: when the archive holds a (unique) record for the requested
category generated within the current calendar day, the `POST /api/insights`
flow returns exactly that record and never reaches the generator: the LLM is
not invoked and the cache state is untouched. -/
theorem cache_hit_short_circuit (st : CacheState) (now : Nat) (apiKeySet : Bool)
    (parse : String → Option InsightsData) (resp nowStr : String)
    (arts : List Article) (c : String) (r : ArchivedRecord)
    (hmem : r ∈ st.archive) (hcat : r.category = c)
    (hday : sameDay r.generatedAt now = true)
    (huniq : ∀ x ∈ st.archive, x.category = c → sameDay x.generatedAt now = true → x = r) :
    postInsightsHandler st now apiKeySet parse resp nowStr
        { articles := some arts, category := some c } =
      { response := .cached r, cacheRead := true, llmCalled := false, state := st } := by
  have hfind : getTodaysInsights st now c = some r := by
    unfold getTodaysInsights
    refine find?_eq_some_of_unique hmem ?_ ?_
    · simp [hcat, hday]
    · intro x hx hpx
      simp only [Bool.and_eq_true, beq_iff_eq] at hpx
      exact huniq x hx hpx.1 hpx.2
  unfold postInsightsHandler
  simp [hfind]

/-- Witness for `cache_hit_short_circuit` on a one-record archive queried
later the same day. -/
theorem cache_hit_short_circuit_witness :
    (recToday ∈ stOne.archive ∧ recToday.category = "mortgage" ∧
      sameDay recToday.generatedAt 500 = true ∧
      (∀ x ∈ stOne.archive, x.category = "mortgage" →
        sameDay x.generatedAt 500 = true → x = recToday)) ∧
    postInsightsHandler stOne 500 true pfNone "r" "t"
        { articles := some [artX], category := some "mortgage" } =
      { response := .cached recToday, cacheRead := true, llmCalled := false, state := stOne } :=
  ⟨⟨by decide, by decide, by decide, by decide⟩,
    cache_hit_short_circuit stOne 500 true pfNone "r" "t" [artX] "mortgage" recToday
      (by decide) (by decide) (by decide) (by decide)⟩

theorem saveInsights_of_find_none (st : CacheState) (now : Nat) (ins : GenResult)
    (c : String) (rs re : Option Nat)
    (h : st.archive.find?
        (fun r => r.category == c && now - r.generatedAt < hourMs) = none) :
    saveInsights st now ins c rs re =
      ({ st with
          memory := (c, ins) :: st.memory.filter (fun p => p.1 != c),
          memoryLog := st.memoryLog ++ [(c, ins)],
          archive :=
            { id := st.nextId, category := c, insights := ins, dateRangeStart := rs,
              dateRangeEnd := re, generatedAt := now } :: st.archive,
          nextId := st.nextId + 1 },
        { id := st.nextId, category := c, insights := ins, dateRangeStart := rs,
          dateRangeEnd := re, generatedAt := now }) := by
  unfold saveInsights
  rw [h]

theorem saveInsights_of_find_some (st : CacheState) (now : Nat) (ins : GenResult)
    (c : String) (rs re : Option Nat) (r : ArchivedRecord)
    (h : st.archive.find?
        (fun x => x.category == c && now - x.generatedAt < hourMs) = some r) :
    saveInsights st now ins c rs re =
      ({ st with
          memory := (c, ins) :: st.memory.filter (fun p => p.1 != c),
          memoryLog := st.memoryLog ++ [(c, ins)] }, r) := by
  unfold saveInsights
  rw [h]

/-- Claim C4: two `saveInsights` calls for the same category less than 60
minutes apart persist exactly one archived row (the second call is deduped)
while the in-memory tier is updated by both calls; each call returns the
persisted record, still present in the archive. -/
theorem dedup_window (st : CacheState) (t1 t2 : Nat) (ins1 ins2 : GenResult)
    (c : String) (rs1 re1 rs2 re2 : Option Nat)
    (hfresh : ∀ r ∈ st.archive, r.category ≠ c)
    (hle : t1 ≤ t2) (hwin : t2 - t1 < hourMs) :
    (saveInsights (saveInsights st t1 ins1 c rs1 re1).1 t2 ins2 c rs2 re2).1.archive.filter
        (fun r => r.category == c) = [(saveInsights st t1 ins1 c rs1 re1).2] ∧
    (saveInsights (saveInsights st t1 ins1 c rs1 re1).1 t2 ins2 c rs2 re2).1.memoryLog =
      st.memoryLog ++ [(c, ins1), (c, ins2)] ∧
    (saveInsights (saveInsights st t1 ins1 c rs1 re1).1 t2 ins2 c rs2 re2).1.memory.find?
        (fun q => q.1 == c) = some (c, ins2) ∧
    (saveInsights (saveInsights st t1 ins1 c rs1 re1).1 t2 ins2 c rs2 re2).2 =
      (saveInsights st t1 ins1 c rs1 re1).2 ∧
    (saveInsights st t1 ins1 c rs1 re1).2 ∈
      (saveInsights (saveInsights st t1 ins1 c rs1 re1).1 t2 ins2 c rs2 re2).1.archive := by
  have hfind1 : st.archive.find?
      (fun r => r.category == c && t1 - r.generatedAt < hourMs) = none := by
    rw [List.find?_eq_none]
    intro x hx
    simp [hfresh x hx]
  rw [saveInsights_of_find_none st t1 ins1 c rs1 re1 hfind1]
  dsimp only
  have hfind2 : (({ id := st.nextId, category := c, insights := ins1, dateRangeStart := rs1, dateRangeEnd := re1, generatedAt := t1 } : ArchivedRecord) :: st.archive).find? (fun x => x.category == c && t2 - x.generatedAt < hourMs) = some { id := st.nextId, category := c, insights := ins1, dateRangeStart := rs1, dateRangeEnd := re1, generatedAt := t1 } := by
    rw [List.find?_cons]
    simp [hwin]
  rw [saveInsights_of_find_some _ t2 ins2 c rs2 re2 _ hfind2]
  dsimp only
  have hrest : st.archive.filter (fun r => r.category == c) = [] := by
    rw [List.filter_eq_nil_iff]
    intro x hx
    simp [hfresh x hx]
  refine ⟨?_, by simp, by simp, rfl, List.mem_cons_self _ _⟩
  simp [List.filter_cons, hrest]

/-- Witness for `dedup_window`: two saves for `"mortgage"` at times 1000 and
2000 (one second apart) starting from the empty cache. -/
theorem dedup_window_witness :
    ((∀ r ∈ emptyCache.archive, r.category ≠ "mortgage") ∧ 1000 ≤ 2000 ∧
      2000 - 1000 < hourMs) ∧
    ((saveInsights (saveInsights emptyCache 1000 insA "mortgage" none none).1 2000
        insB "mortgage" none none).1.archive.filter
          (fun r => r.category == "mortgage") =
        [(saveInsights emptyCache 1000 insA "mortgage" none none).2] ∧
      (saveInsights (saveInsights emptyCache 1000 insA "mortgage" none none).1 2000
          insB "mortgage" none none).1.memoryLog =
        emptyCache.memoryLog ++ [("mortgage", insA), ("mortgage", insB)] ∧
      (saveInsights (saveInsights emptyCache 1000 insA "mortgage" none none).1 2000
          insB "mortgage" none none).1.memory.find?
          (fun q => q.1 == "mortgage") = some ("mortgage", insB) ∧
      (saveInsights (saveInsights emptyCache 1000 insA "mortgage" none none).1 2000
          insB "mortgage" none none).2 =
        (saveInsights emptyCache 1000 insA "mortgage" none none).2 ∧
      (saveInsights emptyCache 1000 insA "mortgage" none none).2 ∈
        (saveInsights (saveInsights emptyCache 1000 insA "mortgage" none none).1 2000
            insB "mortgage" none none).1.archive) :=
  ⟨⟨by simp [emptyCache], by decide, by decide⟩,
    dedup_window emptyCache 1000 2000 insA insB "mortgage" none none none none
      (by simp [emptyCache]) (by decide) (by decide)⟩

/-- Counterexample to claim C7 as stated: a `POST /api/insights` request
carrying the unrecognized category `"bogus"` is not rejected — the handler
proceeds to the cache-tier read and on a cache miss runs generation (here
the LLM is contacted and falls back on the unparseable reply). -/
theorem invalid_category_not_rejected :
    isValidCategory (some "bogus") = false ∧
    (postInsightsHandler emptyCache 0 true pfNone "r" "t"
        { articles := some [artX], category := some "bogus" }).cacheRead = true ∧
    (postInsightsHandler emptyCache 0 true pfNone "r" "t"
        { articles := some [artX], category := some "bogus" }).llmCalled = true := by
  refine ⟨by decide, by decide, by decide⟩

/-- Claim C7 (amended): `isValidCategory` rejection happens only on
`GET /api/articles`, where an invalid category yields a 400 response before
the store is queried; `POST /api/insights` performs no category validation
and always proceeds to the cache-tier read once the `articles` array is
present. -/
theorem category_validation_boundary (store : List Article) (req : ArticlesRequest)
    (st : CacheState) (now : Nat) (apiKeySet : Bool)
    (parse : String → Option InsightsData) (resp nowStr : String)
    (arts : List Article) (cat : Option String)
    (hinv : isValidCategory req.category = false) :
    getArticlesHandler store req =
      { status := 400, storeQueried := false, articles := [] } ∧
    (postInsightsHandler st now apiKeySet parse resp nowStr
        { articles := some arts, category := cat }).cacheRead = true := by
  constructor
  · unfold getArticlesHandler
    rw [hinv]
    rfl
  · unfold postInsightsHandler
    cases h : getTodaysInsights st now (cat.getD "all") <;> simp [h]

/-- Witness for `category_validation_boundary` at the `"bogus"` category. -/
theorem category_validation_boundary_witness :
    (isValidCategory (some "bogus") = false) ∧
    (getArticlesHandler [artX] { category := some "bogus" } =
        { status := 400, storeQueried := false, articles := [] } ∧
      (postInsightsHandler emptyCache 0 true pfNone "r" "t"
          { articles := some [artX], category := some "bogus" }).cacheRead = true) :=
  ⟨by decide,
    category_validation_boundary [artX] { category := some "bogus" } emptyCache 0 true
      pfNone "r" "t" [artX] (some "bogus") (by decide)⟩

theorem step_source (l : List Article) (src : String) :
    (if src != "" then l.filter (fun a => a.source == src) else l) =
      l.filter (fun a => src == "" || a.source == src) := by
  by_cases h : src = ""
  · subst h
    simp
  · have h' : (src != "") = true := by simp [h]
    rw [h']
    simp only [if_true]
    apply List.filter_congr
    intro a _
    have : (src == "") = false := by simp [h]
    rw [this]
    simp

theorem step_keyword (l : List Article) (kw : String) :
    (if kw != "" then l.filter (keywordMatches (jsLower kw)) else l) =
      l.filter (fun a => kw == "" || keywordMatches (jsLower kw) a) := by
  by_cases h : kw = ""
  · subst h
    simp
  · have h' : (kw != "") = true := by simp [h]
    rw [h']
    simp only [if_true]
    apply List.filter_congr
    intro a _
    have : (kw == "") = false := by simp [h]
    rw [this]
    simp

theorem step_startDate (l : List Article) (sd : Option Nat) :
    (match sd with
      | some d => l.filter (fun a => startOfDay d ≤ a.pubDate)
      | none => l) =
      l.filter (fun a =>
        match sd with | none => true | some d => decide (startOfDay d ≤ a.pubDate)) := by
  cases sd <;> simp

theorem step_endDate (l : List Article) (ed : Option Nat) :
    (match ed with
      | some d => l.filter (fun a => a.pubDate ≤ endOfDay d)
      | none => l) =
      l.filter (fun a =>
        match ed with | none => true | some d => decide (a.pubDate ≤ endOfDay d)) := by
  cases ed <;> simp

theorem getArticles_eq_mergeSort_filter (store : List Article) (f : ArticleFilters) :
    getArticles store f =
      (store.filter (querySpecMatchesNoCategory f)).mergeSort pubDateDesc := by
  unfold getArticles
  dsimp only
  rw [step_source, step_startDate, step_endDate, step_keyword,
    List.filter_filter, List.filter_filter, List.filter_filter]
  congr 1
  apply List.filter_congr
  intro a _
  rw [Bool.eq_iff_iff]
  simp only [querySpecMatchesNoCategory, Bool.and_eq_true, Bool.or_eq_true]
  tauto

/-- Claim C6 (amended): `getArticles` returns exactly the stored articles
satisfying the supplied source, startDate, endDate and keyword filters with
AND semantics (keyword case-insensitive substring of title or summary,
startDate normalized to start-of-day and endDate to end-of-day, both
inclusive), ordered by `pubDate` descending — while a supplied `category`
filter is ignored. -/
theorem query_filters_and_order (store : List Article) (f : ArticleFilters) :
    List.Perm (getArticles store f) (store.filter (querySpecMatchesNoCategory f)) ∧
    (getArticles store f).Pairwise (fun a b => b.pubDate ≤ a.pubDate) ∧
    getArticles store f = getArticles store { f with category := "" } := by
  refine ⟨?_, ?_, rfl⟩
  · rw [getArticles_eq_mergeSort_filter]
    exact List.mergeSort_perm _ _
  · rw [getArticles_eq_mergeSort_filter]
    have htrans : ∀ a b c : Article,
        pubDateDesc a b → pubDateDesc b c → pubDateDesc a c := by
      intro a b c hab hbc
      simp only [pubDateDesc, decide_eq_true_iff] at hab hbc ⊢
      exact Nat.le_trans hbc hab
    have htotal : ∀ a b : Article, pubDateDesc a b || pubDateDesc b a := by
      intro a b
      simp only [pubDateDesc]
      rcases Nat.le_total a.pubDate b.pubDate with h | h <;> simp [h]
    have hp := List.sorted_mergeSort htrans htotal
      (store.filter (querySpecMatchesNoCategory f))
    exact hp.imp (fun h => by simpa [pubDateDesc] using h)

/-- Counterexample to claim C6 as stated: a stored article whose category
does not match the supplied `category` filter is returned anyway — the code
never reads `filters.category`, so the result is not "exactly the articles
satisfying all supplied filters". -/
theorem query_category_filter_ignored :
    getArticles [artPM] fMortgage = [artPM] ∧ querySpecMatches fMortgage artPM = false := by
  constructor
  · simp [getArticles, fMortgage, artPM]
  · decide
